import Mathlib

/-!
Verification of the ingestion-and-retrieval pipeline of the document QA
backend.  Each definition below is a shallow embedding of a function of the
repository, translated from the Python source:

* chunking and the vector store : backend/services/vector_search.py
* retrieval filtering           : backend/services/vector_search.py
  (search_similar_chunks)
* the generation router         : backend/services/llm_client.py and
  backend/services/llm_llama_client.py
* the extraction orchestrator   : backend/routers/documents.py

Text is modelled as List Char (Python str), engine distances and heuristic
scores as rationals, and fallible external calls as Option / Except values
supplied as inputs.
-/

namespace DocQA

/-! ### Chunker — vector_search.add_document, lines 100-127 -/

/-- Python str.strip strips leading and trailing whitespace. -/
def isWS (c : Char) : Bool := c.isWhitespace

/-- Model of Python str.strip(). -/
def strip (l : List Char) : List Char :=
  ((l.dropWhile isWS).reverse.dropWhile isWS).reverse

/-- Model of Python text.split on a blank line (the two-character
separator of two newlines), leftmost non-overlapping occurrences,
as used in add_document line 121. -/
def splitOnBlank : List Char → List (List Char)
  | [] => [[]]
  | '\n' :: '\n' :: rest => [] :: splitOnBlank rest
  | c :: rest =>
    match splitOnBlank rest with
    | [] => [[c]]
    | b :: bs => (c :: b) :: bs

/-- The while loop of _split_with_overlap (lines 111-117): windows of
maxC characters taken every step characters; each window is stripped and
dropped when empty.  The loop is embedded with explicit fuel; one unit of
fuel is spent per iteration, and the callers pass fuel that provably
suffices whenever 0 < step (the source guarantees step >= 1 because the
overlap is clamped to at most half of max_chars). -/
def splitLoopF (maxC step : Nat) (block : List Char) : Nat → Nat → List (List Char)
  | 0, _ => []
  | fuel + 1, start =>
    if start < block.length then
      let c := strip ((block.drop start).take maxC)
      let rest := splitLoopF maxC step block fuel (start + step)
      if c = [] then rest else c :: rest
    else []

/-- Model of _split_with_overlap (lines 107-118). -/
def splitWithOverlap (maxC step : Nat) (block : List Char) : List (List Char) :=
  if block.length ≤ maxC then (if block.isEmpty then [] else [block])
  else splitLoopF maxC step block block.length 0

/-- Line 104: overlap_chars = min(max(0, overlap_chars), max_chars // 2).
The Python ints are modelled as Int for the argument and Nat for the
clamped result (the clamp makes it non-negative). -/
def clampOverlap (maxChars : Nat) (overlap : Int) : Nat :=
  min (max 0 overlap).toNat (maxChars / 2)

/-- The chunk list built by add_document lines 100-127: strip the content,
return nothing when empty, otherwise split into paragraphs on blank lines,
strip each paragraph, skip empty ones, and split each long paragraph into
overlapping windows; finally keep only non-empty chunk texts (line 126). -/
def chunkDocument (maxChars : Nat) (overlap : Int) (content : List Char) : List (List Char) :=
  let text := strip content
  if text.isEmpty then []
  else
    let step := maxChars - clampOverlap maxChars overlap
    (splitOnBlank text).flatMap (fun b =>
      let block := strip b
      if block.isEmpty then []
      else (splitWithOverlap maxChars step block).filter (fun c => !c.isEmpty))

/-! ### Vector store — vector_search.py state, add_document, delete_document -/

/-- A persisted chunk record: id plus the metadata of lines 144-151. -/
structure StoredChunk where
  id : Nat
  documentId : String
  documentName : Option String
  sectionLabel : String
  content : List Char
deriving DecidableEq

/-- The store's mutable state: the module-global _next_chunk_id counter
(line 77) and the Chroma collection contents. -/
structure Store where
  nextChunkId : Nat
  items : List StoredChunk
deriving DecidableEq

/-- The process-start state: _next_chunk_id = 1, empty collection. -/
def initialStore : Store := ⟨1, []⟩

/-- Model of add_document (lines 80-154): chunk the content; if no chunks
result return 0; otherwise assign consecutive ids starting at the current
counter, append the records to the collection, advance the counter, and
return the number of chunks added. -/
def addDocument (s : Store) (docId : String) (docName : Option String)
    (content : List Char) (maxChars : Nat) (overlap : Int) : Store × Nat :=
  let chunks := chunkDocument maxChars overlap content
  if chunks.isEmpty then (s, 0)
  else
    let newItems := chunks.enum.map (fun p =>
      StoredChunk.mk (s.nextChunkId + p.1) docId docName
        ("uploaded_chunk_" ++ toString (p.1 + 1)) p.2)
    (⟨s.nextChunkId + chunks.length, s.items ++ newItems⟩, chunks.length)

/-- Model of delete_document (lines 157-171): fetch the ids whose metadata
document_id matches, delete them, return how many there were.  The
try/except that catches any underlying store error is modelled by the
storeFails flag: when the store raises, the handler logs and returns 0
(the collection is then left as it was). -/
def deleteDocument (s : Store) (docId : String) (storeFails : Bool) : Store × Nat :=
  if storeFails then (s, 0)
  else
    let matching := s.items.filter (fun c => decide (c.documentId = docId))
    (⟨s.nextChunkId, s.items.filter (fun c => !decide (c.documentId = docId))⟩, matching.length)

/-- One store operation of a process lifetime. -/
inductive Op
  | add (docId : String) (docName : Option String) (content : List Char)
      (maxChars : Nat) (overlap : Int)
  | delete (docId : String) (storeFails : Bool)

/-- Run one operation; also report the chunk ids assigned by an add
(consecutive from the counter, one per chunk added). -/
def runOp (s : Store) : Op → Store × List Nat
  | Op.add d nm c m o =>
    let r := addDocument s d nm c m o
    (r.1, List.range' s.nextChunkId r.2)
  | Op.delete d f => ((deleteDocument s d f).1, [])

/-- Run a sequence of operations, concatenating the assigned chunk ids in
order of assignment. -/
def runOps (s : Store) : List Op → Store × List Nat
  | [] => (s, [])
  | op :: rest =>
    let r := runOp s op
    let rr := runOps r.1 rest
    (rr.1, r.2 ++ rr.2)

/-! ### Retrieval — vector_search.search_similar_chunks, lines 174-248 -/

/-- The chunk dataclass of services/chunks.py. -/
structure FinancialChunk where
  id : Nat
  documentId : String
  documentName : Option String
  sectionLabel : String
  content : String
deriving DecidableEq

/-- Lines 200-206: the distance-to-similarity conversion, selected by
distance magnitude. -/
def similarityOfDistance (d : ℚ) : ℚ :=
  if d ≤ 1 then 1 - d else max 0 (1 - d * d / 2)

/-- Line 27: default VECTOR_SIMILARITY_THRESHOLD = 0.2. -/
def SIMILARITY_THRESHOLD : ℚ := 2 / 10

/-- The for loop of lines 198-226 over the engine's candidate rows
(metadata/document/distance triples, here a chunk paired with its
reported distance, in the engine's returned order): skip a row whose
similarity is below the threshold, otherwise append it, stopping once
limit results are collected.  This models the use_threshold = true path,
i.e. the engine returned one distance per candidate. -/
def searchLoop (th : ℚ) (lim : Nat) :
    List (FinancialChunk × ℚ) → List FinancialChunk → List FinancialChunk
  | [], acc => acc
  | r :: rest, acc =>
    if similarityOfDistance r.2 < th then searchLoop th lim rest acc
    else
      let acc2 := acc ++ [r.1]
      if lim ≤ acc2.length then acc2 else searchLoop th lim rest acc2

/-- Model of search_similar_chunks on the engine's candidate rows: the
collecting loop followed by the final chunks[:limit] trim (line 228). -/
def searchSimilarChunks (th : ℚ) (lim : Nat) (rows : List (FinancialChunk × ℚ)) :
    List FinancialChunk :=
  (searchLoop th lim rows []).take lim

/-- Observer used to state properties of the returned results together
with their similarities: the candidate rows that pass the threshold,
trimmed to the limit. -/
def searchResultsWithSim (th : ℚ) (lim : Nat) (rows : List (FinancialChunk × ℚ)) :
    List (FinancialChunk × ℚ) :=
  (rows.filter (fun r => !decide (similarityOfDistance r.2 < th))).take lim

/-! ### Generation router — llm_client.py and llm_llama_client.py -/

/-- Line 100 of llm_client.py: the fixed generic apology string. -/
def APOLOGY : String := "Unable to process the question at present. Please try again later."

/-- Line 44 of llm_llama_client.py: the sentinel returned when the chat
response lacks the expected shape. -/
def LLM_ERROR_MSG : String := "[LLM_ERROR] Unexpected response format from Ollama chat API."

/-- Lines 49-53 of llm_client.py: the no-chunks fallback message. -/
def noRelevantInfo (question : String) : String :=
  "I could not find any relevant information in the uploaded documents for your question:\n\""
    ++ question ++ "\""

/-- Lines 41-44 of llm_llama_client.py: after a successful HTTP exchange,
read choices[0].message.content as a string and strip it; on KeyError,
IndexError or TypeError (the response is missing that shape) return the
fixed sentinel.  The argument is the content the response carries, when
the shape is present. -/
def llamaParseResponse (content : Option String) : String :=
  match content with
  | some c => c.trim
  | none => LLM_ERROR_MSG

/-- Model of answer_question_from_chunks (lines 39-102).  The outcome of
await _call_llm(prompt) is an input: Except.error models a raised
exception (transport, timeout, malformed JSON body), Except.ok the
returned text. -/
def answerQuestionFromChunks (question : String) (chunks : List FinancialChunk)
    (maxChunks : Nat) (backend : Except String String) :
    String × List FinancialChunk :=
  let selected := chunks.take maxChunks
  if selected.isEmpty then (noRelevantInfo question, [])
  else
    let answer :=
      match backend with
      | Except.ok t => t
      | Except.error _ => APOLOGY
    ((if answer = "" then APOLOGY else answer), selected)

/-! ### Extraction orchestrator — routers/documents.py -/

/-- Line 44: characters counted as good by _readability_score. -/
def goodChar (c : Char) : Bool :=
  c.isAlphanum || c ∈ [' ', '.', ',', '$', '%', '(', ')', '-', '/']

/-- Model of _readability_score (lines 37-45). -/
def readabilityScore (t : List Char) : ℚ :=
  if t.isEmpty || (strip t).isEmpty then 0
  else
    let clean := t.map (fun c => if c = '\n' ∨ c = '\t' then ' ' else c)
    ((clean.filter goodChar).length : ℚ) / (clean.length : ℚ)

/-- Lines 57-60: the domain vocabulary of _looks_garbled. -/
def financialWords : List String :=
  ["revenue", "income", "million", "billion", "total", "year",
   "consolidated", "operating", "expenses", "net", "financial"]

/-- Model of the Python substring test w in t. -/
def containsSub (w t : List Char) : Bool :=
  t.tails.any (fun s => w.isPrefixOf s)

/-- Model of _looks_garbled (lines 48-61). -/
def looksGarbled (t : List Char) : Bool :=
  if t.isEmpty || t.length < 100 then false
  else
    let lower := t.map Char.toLower
    !(financialWords.any (fun w => containsSub w.data lower))

/-- Model of _ensure_utf8 (lines 18-20): on text whose characters are
valid scalar values — every Lean Char is — the UTF-8 encode/decode round
trip replaces nothing and is the identity. -/
def ensureUtf8 (t : List Char) : List Char := t

/-- Python truthiness of an optional string. -/
def truthy (o : Option (List Char)) : Bool :=
  match o with
  | none => false
  | some t => !t.isEmpty

/-- Lines 166-173 of _extract_text_from_pdf: the fast path — return the
PyMuPDF candidate immediately when it is truthy, its readability clears
0.35 and it is not flagged garbled. -/
def step1FastPath (pym : Option (List Char)) : Option (List Char) :=
  match pym with
  | some t =>
    if ¬t.isEmpty ∧ (35 : ℚ) / 100 ≤ readabilityScore t ∧ looksGarbled t = false
    then some t else none
  | none => none

/-- Lines 174-176: the initial best candidate when the fast path did not
return (best_text, best_score, best_garbled). -/
def step1Best (pym : Option (List Char)) : Option (List Char) × ℚ × Bool :=
  match pym with
  | some t => if t.isEmpty then (none, 0, true) else (some t, readabilityScore t, looksGarbled t)
  | none => (none, 0, true)

/-- Lines 179-188: try pdfplumber (Except.error models its exception,
caught and logged); keep whichever candidate has the strictly higher
readability score, or the new one when there was no best yet. -/
def step2 (best : Option (List Char) × ℚ × Bool) (pdfp : Except Unit (List Char)) :
    Option (List Char) × ℚ × Bool :=
  match pdfp with
  | Except.error _ => best
  | Except.ok t =>
    if t.isEmpty then best
    else
      let score := readabilityScore t
      let garbled := looksGarbled t
      if best.2.1 < score ∨ best.1 = none then (some t, score, garbled) else best

/-- Lines 190-210: when a best candidate exists and is garbled or below
the 0.35 threshold, invoke OCR and prefer its result when not garbled or
strictly better; otherwise return the best.  With no best candidate, OCR
is the last resort, and failure of every strategy raises (modelled as
none).  The second component records whether the OCR strategy was
invoked. -/
def step3 (b : Option (List Char) × ℚ × Bool) (ocr : Option (List Char)) :
    Option (List Char) × Bool :=
  match b with
  | (some bt, bscore, bgarbled) =>
    if bgarbled = true ∨ bscore < (35 : ℚ) / 100 then
      match ocr with
      | some ot =>
        if ¬ot.isEmpty ∧ (looksGarbled ot = false ∨ bscore < readabilityScore ot)
        then (some (ensureUtf8 ot), true)
        else (some (ensureUtf8 bt), true)
      | none => (some (ensureUtf8 bt), true)
    else (some (ensureUtf8 bt), false)
  | (none, _, _) =>
    match ocr with
    | some ot => if ot.isEmpty then (none, true) else (some (ensureUtf8 ot), true)
    | none => (none, true)

/-- Model of _extract_text_from_pdf (lines 160-210).  The three strategy
outcomes are inputs: the PyMuPDF text (none when the import or open
failed or no page had text), the pdfplumber text (error when it raised),
and the OCR text (none when unavailable or empty).  Returns the extracted
text (none modelling the HTTP 400 raise) and whether OCR was invoked. -/
def extractTextFromPdf (pym : Option (List Char)) (pdfp : Except Unit (List Char))
    (ocr : Option (List Char)) : Option (List Char) × Bool :=
  match step1FastPath pym with
  | some t => (some (ensureUtf8 t), false)
  | none => step3 (step2 (step1Best pym) pdfp) ocr

/-! ### Chunker lemmas -/

/-- Stripping never lengthens a string. -/
theorem strip_length_le (l : List Char) : (strip l).length ≤ l.length := by
  unfold strip
  calc ((l.dropWhile isWS).reverse.dropWhile isWS).reverse.length
      = ((l.dropWhile isWS).reverse.dropWhile isWS).length := List.length_reverse _
    _ ≤ (l.dropWhile isWS).reverse.length := (List.dropWhile_sublist _).length_le
    _ = (l.dropWhile isWS).length := List.length_reverse _
    _ ≤ l.length := (List.dropWhile_sublist _).length_le

theorem dropWhile_replicate_of_not_ws (n : Nat) (c : Char) (h : isWS c = false) :
    List.dropWhile isWS (List.replicate n c) = List.replicate n c := by
  cases n with
  | zero => rfl
  | succ m => simp [List.replicate_succ, List.dropWhile_cons, h]

/-- Stripping a repetition of a non-whitespace character changes nothing. -/
theorem strip_replicate (n : Nat) (c : Char) (h : isWS c = false) :
    strip (List.replicate n c) = List.replicate n c := by
  unfold strip
  rw [dropWhile_replicate_of_not_ws n c h, List.reverse_replicate,
    dropWhile_replicate_of_not_ws n c h, List.reverse_replicate]

/-- Text with no newline at all is a single paragraph. -/
theorem splitOnBlank_of_not_newline (l : List Char) (h : '\n' ∉ l) :
    splitOnBlank l = [l] := by
  induction l with
  | nil => rfl
  | cons c rest ih =>
    have hc : c ≠ '\n' := fun e => h (e ▸ List.mem_cons_self c rest)
    have hrest : '\n' ∉ rest := fun m => h (List.mem_cons_of_mem _ m)
    rw [splitOnBlank.eq_def]
    split
    · simp_all
    · simp_all
    · rename_i heq
      injection heq with h1 h2
      subst h1; subst h2
      rw [ih hrest]

/-- The number of loop iterations of _split_with_overlap when starting
at offset start in a block of length len. -/
def numWindows (len step start : Nat) : Nat := (len - start + step - 1) / step

theorem numWindows_zero (len step start : Nat) (hs : 0 < step) (h : len ≤ start) :
    numWindows len step start = 0 := by
  unfold numWindows
  have h0 : len - start = 0 := Nat.sub_eq_zero_of_le h
  rw [h0]
  exact Nat.div_eq_of_lt (by omega)

theorem numWindows_succ (len step start : Nat) (hs : 0 < step) (h : start < len) :
    numWindows len step start = numWindows len step (start + step) + 1 := by
  unfold numWindows
  by_cases hle : len ≤ start + step
  · have h1 : len - (start + step) = 0 := Nat.sub_eq_zero_of_le hle
    rw [h1]
    have h2 : (0 + step - 1) / step = 0 := Nat.div_eq_of_lt (by omega)
    rw [h2]
    exact Nat.div_eq_of_lt_le (by omega) (by omega)
  · have hlt : start + step < len := Nat.lt_of_not_le hle
    have h1 : len - start + step - 1 = (len - (start + step) + step - 1) + step := by
      omega
    rw [h1, Nat.add_div_right _ hs]

/-- Closed form of the _split_with_overlap loop: starting at offset
start with enough fuel, it emits exactly the non-empty strips of the
windows whose offsets are start, start + step, start + 2·step, ... while
the offset is inside the block. -/
theorem splitLoopF_eq (maxC step : Nat) (block : List Char) (hstep : 0 < step) :
    ∀ fuel start, block.length ≤ start + fuel * step →
      splitLoopF maxC step block fuel start =
        ((List.range' start (numWindows block.length step start) step).map
          (fun st => strip ((block.drop st).take maxC))).filter (fun c => !c.isEmpty) := by
  intro fuel
  induction fuel with
  | zero =>
    intro start h
    have h0 : block.length ≤ start := by simpa using h
    rw [numWindows_zero _ _ _ hstep h0]
    rfl
  | succ n ih =>
    intro start h
    by_cases hlt : start < block.length
    · have hfuel : block.length ≤ (start + step) + n * step := by
        rw [Nat.succ_mul] at h
        omega
      rw [numWindows_succ _ _ _ hstep hlt, List.range'_succ]
      simp only [List.map_cons, List.filter_cons]
      rw [splitLoopF]
      simp only [if_pos hlt]
      rw [ih (start + step) hfuel]
      by_cases he : strip ((block.drop start).take maxC) = []
      · simp [he]
      · simp [he, List.isEmpty_iff]
    · rw [numWindows_zero _ _ _ hstep (Nat.le_of_not_lt hlt), splitLoopF]
      simp [hlt]

/-- Closed form of _split_with_overlap on a block longer than maxC. -/
theorem splitWithOverlap_long (maxC step : Nat) (block : List Char) (hstep : 0 < step)
    (hlong : maxC < block.length) :
    splitWithOverlap maxC step block =
      ((List.range' 0 (numWindows block.length step 0) step).map
        (fun st => strip ((block.drop st).take maxC))).filter (fun c => !c.isEmpty) := by
  unfold splitWithOverlap
  rw [if_neg (by omega)]
  exact splitLoopF_eq maxC step block hstep block.length 0
    (by have := Nat.le_mul_of_pos_right block.length hstep; omega)

/-- A repetition of a positive number of characters is not empty. -/
theorem replicate_isEmpty_false (n : Nat) (c : Char) (h : n ≠ 0) :
    (List.replicate n c).isEmpty = false := by
  cases n with
  | zero => exact absurd rfl h
  | succ m => rfl

/-- Scenario B evaluated on the model: 2000 repeated characters with
max_chars 800 and overlap 100 chunk into windows of 800, 800 and 600
characters at offsets 0, 700 and 1400. -/
theorem chunkDocument_scenarioB :
    chunkDocument 800 100 (List.replicate 2000 'A') =
      [List.replicate 800 'A', List.replicate 800 'A', List.replicate 600 'A'] := by
  have hA : isWS 'A' = false := by decide
  have hmem : '\n' ∉ List.replicate 2000 'A' := by
    intro m
    rw [List.mem_replicate] at m
    exact absurd m.2 (by decide)
  have e2000 := replicate_isEmpty_false 2000 'A' (by omega)
  have e800 := replicate_isEmpty_false 800 'A' (by omega)
  have e600 := replicate_isEmpty_false 600 'A' (by omega)
  unfold chunkDocument
  rw [strip_replicate _ _ hA]
  rw [if_neg (by rw [e2000]; exact Bool.false_ne_true)]
  have hclamp : clampOverlap 800 100 = 100 := by decide
  rw [hclamp]
  rw [splitOnBlank_of_not_newline _ hmem]
  simp only [List.flatMap_cons, List.flatMap_nil, List.append_nil]
  rw [strip_replicate _ _ hA]
  rw [if_neg (by rw [e2000]; exact Bool.false_ne_true)]
  rw [splitWithOverlap_long 800 700 _ (by decide)
    (by rw [List.length_replicate]; omega)]
  rw [List.length_replicate]
  have hnum : numWindows 2000 700 0 = 3 := by decide
  rw [hnum]
  have hr : List.range' 0 3 700 = [0, 700, 1400] := by decide
  rw [hr]
  simp only [List.map_cons, List.map_nil]
  rw [List.drop_replicate, List.drop_replicate, List.drop_replicate]
  rw [List.take_replicate, List.take_replicate, List.take_replicate]
  have hm1 : min 800 (2000 - 0) = 800 := by norm_num
  have hm2 : min 800 (2000 - 700) = 800 := by norm_num
  have hm3 : min 800 (2000 - 1400) = 600 := by norm_num
  rw [hm1, hm2, hm3]
  rw [strip_replicate _ _ hA, strip_replicate _ _ hA]
  simp only [List.filter_cons, List.filter_nil, e800, e600, Bool.not_false,
    eq_self_iff_true, if_true]

/-- Every chunk the window loop emits is the strip of some window. -/
theorem mem_splitLoopF (maxC step : Nat) (block : List Char) :
    ∀ fuel start c, c ∈ splitLoopF maxC step block fuel start →
      ∃ st, c = strip ((block.drop st).take maxC) := by
  intro fuel
  induction fuel with
  | zero =>
    intro start c h
    rw [splitLoopF] at h
    exact absurd h (List.not_mem_nil c)
  | succ n ih =>
    intro start c h
    rw [splitLoopF] at h
    by_cases hlt : start < block.length
    · rw [if_pos hlt] at h
      simp only at h
      by_cases he : strip ((block.drop start).take maxC) = []
      · rw [if_pos he] at h
        exact ih (start + step) c h
      · rw [if_neg he] at h
        rcases List.mem_cons.mp h with h1 | h2
        · exact ⟨start, h1⟩
        · exact ih (start + step) c h2
    · rw [if_neg hlt] at h
      exact absurd h (List.not_mem_nil c)

/-- Every chunk produced by the chunking step is at most maxChars
characters long. -/
theorem chunkDocument_length_le (maxChars : Nat) (overlap : Int) (content : List Char) :
    ∀ c ∈ chunkDocument maxChars overlap content, c.length ≤ maxChars := by
  intro c hc
  unfold chunkDocument at hc
  by_cases ht : (strip content).isEmpty
  · rw [if_pos ht] at hc
    exact absurd hc (List.not_mem_nil c)
  · rw [if_neg ht] at hc
    simp only at hc
    rcases List.mem_flatMap.mp hc with ⟨b, _, hb⟩
    by_cases hbe : (strip b).isEmpty
    · rw [if_pos hbe] at hb
      exact absurd hb (List.not_mem_nil c)
    · rw [if_neg hbe] at hb
      have hmem := (List.mem_filter.mp hb).1
      unfold splitWithOverlap at hmem
      by_cases hlen : (strip b).length ≤ maxChars
      · rw [if_pos hlen] at hmem
        rw [if_neg hbe] at hmem
        rcases List.mem_cons.mp hmem with h1 | h2
        · rw [h1]; exact hlen
        · exact absurd h2 (List.not_mem_nil c)
      · rw [if_neg hlen] at hmem
        rcases mem_splitLoopF _ _ _ _ _ _ hmem with ⟨st, hst⟩
        rw [hst]
        calc (strip (((strip b).drop st).take maxChars)).length
            ≤ (((strip b).drop st).take maxChars).length := strip_length_le _
          _ ≤ maxChars := by rw [List.length_take]; omega

/-- The clamped overlap never exceeds half of max_chars, so the stride is
positive whenever max_chars is. -/
theorem step_pos (maxChars : Nat) (overlap : Int) (h : 0 < maxChars) :
    0 < maxChars - clampOverlap maxChars overlap := by
  have h1 : clampOverlap maxChars overlap ≤ maxChars / 2 := min_le_right _ _
  omega

/-- C6: for every input text, max_chars > 0 and overlap_chars, every chunk
emitted by the chunking step of add has content length at most max_chars,
and within one paragraph longer than max_chars the emitted chunks are
exactly the non-empty strips of the windows whose start offsets are
0, step, 2·step, ... with step = max_chars − clamped_overlap — consecutive
window starts are exactly step apart, never less. -/
theorem chunk_bound_and_stride (maxChars : Nat) (overlap : Int) (h : 0 < maxChars) :
    (∀ content, ∀ c ∈ chunkDocument maxChars overlap content, c.length ≤ maxChars) ∧
    (∀ block : List Char, maxChars < block.length →
      splitWithOverlap maxChars (maxChars - clampOverlap maxChars overlap) block =
        ((List.range' 0
            (numWindows block.length (maxChars - clampOverlap maxChars overlap) 0)
            (maxChars - clampOverlap maxChars overlap)).map
          (fun st => strip ((block.drop st).take maxChars))).filter
          (fun c => !c.isEmpty)) := by
  constructor
  · intro content
    exact chunkDocument_length_le maxChars overlap content
  · intro block hlong
    exact splitWithOverlap_long _ _ _ (step_pos maxChars overlap h) hlong

/-- Witness for chunk_bound_and_stride at max_chars 800, overlap 100. -/
theorem chunk_bound_and_stride_witness :
    0 < 800 ∧
    ((∀ content, ∀ c ∈ chunkDocument 800 100 content, c.length ≤ 800) ∧
    (∀ block : List Char, 800 < block.length →
      splitWithOverlap 800 (800 - clampOverlap 800 100) block =
        ((List.range' 0 (numWindows block.length (800 - clampOverlap 800 100) 0)
            (800 - clampOverlap 800 100)).map
          (fun st => strip ((block.drop st).take 800))).filter
          (fun c => !c.isEmpty))) :=
  ⟨by omega, chunk_bound_and_stride 800 100 (by omega)⟩

/-- C1 (counterexample): the claimed chunk lengths 800, 800, 500 for
Scenario B are wrong — the third window covers offsets 1400 to 2000 and
so has 600 characters. -/
theorem scenarioB_cex :
    (chunkDocument 800 100 (List.replicate 2000 'A')).map List.length ≠ [800, 800, 500] := by
  rw [chunkDocument_scenarioB]
  intro h
  simp only [List.map_cons, List.map_nil, List.length_replicate, List.cons.injEq,
    and_true] at h
  omega

/-- C1 (amended): add on 2000 repeated characters with max_chars 800 and
overlap 100 uses step 700 and emits exactly 3 chunks, the windows starting
at offsets 0, 700 and 1400, of lengths 800, 800 and 600. -/
theorem scenarioB_amended :
    clampOverlap 800 100 = 100 ∧
    List.range' 0 (numWindows 2000 700 0) 700 = [0, 700, 1400] ∧
    chunkDocument 800 100 (List.replicate 2000 'A') =
      [List.replicate 800 'A', List.replicate 800 'A', List.replicate 600 'A'] ∧
    (chunkDocument 800 100 (List.replicate 2000 'A')).map List.length = [800, 800, 600] := by
  refine ⟨by decide, by decide, chunkDocument_scenarioB, ?_⟩
  rw [chunkDocument_scenarioB]
  simp only [List.map_cons, List.map_nil, List.length_replicate]

/-- C10: the effective overlap is clamped into [0, max_chars / 2]; a
negative overlap argument behaves exactly as overlap 0, and the stride is
then the full max_chars (disjoint windows). -/
theorem negative_overlap_clamped (maxChars : Nat) (overlap : Int) (hneg : overlap < 0) :
    clampOverlap maxChars overlap = 0 ∧
    (∀ ov : Int, clampOverlap maxChars ov ≤ maxChars / 2) ∧
    (∀ content, chunkDocument maxChars overlap content = chunkDocument maxChars 0 content) ∧
    maxChars - clampOverlap maxChars overlap = maxChars := by
  have hz : clampOverlap maxChars overlap = 0 := by
    unfold clampOverlap
    rw [max_eq_left (le_of_lt hneg)]
    simp
  have hz0 : clampOverlap maxChars 0 = 0 := by
    unfold clampOverlap
    simp
  refine ⟨hz, fun ov => min_le_right _ _, ?_, by omega⟩
  intro content
  unfold chunkDocument
  rw [hz, hz0]

/-- Witness for negative_overlap_clamped at max_chars 800, overlap -5. -/
theorem negative_overlap_clamped_witness :
    (-5 : Int) < 0 ∧
    (clampOverlap 800 (-5) = 0 ∧
    (∀ ov : Int, clampOverlap 800 ov ≤ 800 / 2) ∧
    (∀ content, chunkDocument 800 (-5) content = chunkDocument 800 0 content) ∧
    800 - clampOverlap 800 (-5) = 800) :=
  ⟨by omega, negative_overlap_clamped 800 (-5) (by omega)⟩

/-! ### Retrieval lemmas -/

/-- The collecting loop of search_similar_chunks, trimmed to the limit,
collects exactly the passing candidates in order, trimmed to the limit:
threshold filtering happens before the limit is applied. -/
theorem searchLoop_take (th : ℚ) (lim : Nat) :
    ∀ rows acc,
      (searchLoop th lim rows acc).take lim =
        (acc ++ (rows.filter
          (fun r => !decide (similarityOfDistance r.2 < th))).map Prod.fst).take lim := by
  intro rows
  induction rows with
  | nil =>
    intro acc
    simp [searchLoop]
  | cons r rest ih =>
    intro acc
    rw [searchLoop]
    by_cases hlt : similarityOfDistance r.2 < th
    · rw [if_pos hlt, List.filter_cons]
      have hb : (!decide (similarityOfDistance r.2 < th)) = false := by simp [hlt]
      rw [hb]
      simp only [Bool.false_eq_true, if_false]
      exact ih acc
    · rw [if_neg hlt, List.filter_cons]
      have hb : (!decide (similarityOfDistance r.2 < th)) = true := by simp [hlt]
      rw [hb]
      simp only [if_true]
      rw [List.map_cons]
      conv_rhs => rw [List.append_cons]
      by_cases hlim : lim ≤ (acc ++ [r.1]).length
      · rw [if_pos hlim]
        rw [List.take_append_of_le_length hlim]
      · rw [if_neg hlim]
        exact ih (acc ++ [r.1])

/-- search_similar_chunks returns the chunk parts of the passing rows. -/
theorem searchSimilarChunks_eq (th : ℚ) (lim : Nat) (rows : List (FinancialChunk × ℚ)) :
    searchSimilarChunks th lim rows = (searchResultsWithSim th lim rows).map Prod.fst := by
  unfold searchSimilarChunks searchResultsWithSim
  rw [searchLoop_take th lim rows []]
  rw [List.nil_append, List.map_take]

/-- C3: every result returned by one query call has similarity at least
the configured threshold, and candidates below the threshold are
discarded before the limit is applied (the results are the passing
candidates trimmed to the limit). -/
theorem threshold_filtering (th : ℚ) (lim : Nat) (rows : List (FinancialChunk × ℚ)) :
    searchSimilarChunks th lim rows = (searchResultsWithSim th lim rows).map Prod.fst ∧
    (∀ p ∈ searchResultsWithSim th lim rows, th ≤ similarityOfDistance p.2) ∧
    searchResultsWithSim th lim rows =
      (rows.filter (fun r => !decide (similarityOfDistance r.2 < th))).take lim := by
  refine ⟨searchSimilarChunks_eq th lim rows, ?_, rfl⟩
  intro p hp
  have hf := List.mem_of_mem_take hp
  have hpass := (List.mem_filter.mp hf).2
  simp only [Bool.not_eq_eq_eq_not, Bool.not_true, decide_eq_false_iff_not] at hpass
  exact not_lt.mp hpass

/-- The similarity conversion is antitone within one distance convention
regime (both distances cosine-style at most 1, or both L2-style above 1). -/
theorem similarityOfDistance_anti (d e : ℚ) (hde : d ≤ e)
    (hreg : (d ≤ 1 ∧ e ≤ 1) ∨ (1 < d ∧ 1 < e)) :
    similarityOfDistance e ≤ similarityOfDistance d := by
  unfold similarityOfDistance
  rcases hreg with ⟨h1, h2⟩ | ⟨h1, h2⟩
  · rw [if_pos h1, if_pos h2]
    linarith
  · rw [if_neg (not_le.mpr h1), if_neg (not_le.mpr h2)]
    refine max_le_max le_rfl ?_
    have hsq : d * d ≤ e * e := by nlinarith
    linarith

/-- C2 (amended): when the engine's candidates, in best-first
distance-ascending order, all fall in one distance-convention regime
(all distances ≤ 1, or all > 1), the returned results are non-increasing
in similarity.  (Mixing the two regimes can reorder similarities, see the
counterexample.) -/
theorem result_ordering_same_regime (th : ℚ) (lim : Nat)
    (rows : List (FinancialChunk × ℚ))
    (hasc : rows.Pairwise (fun a b => a.2 ≤ b.2))
    (hreg : (∀ r ∈ rows, r.2 ≤ 1) ∨ (∀ r ∈ rows, 1 < r.2)) :
    (searchResultsWithSim th lim rows).Pairwise
      (fun a b => similarityOfDistance b.2 ≤ similarityOfDistance a.2) ∧
    searchSimilarChunks th lim rows = (searchResultsWithSim th lim rows).map Prod.fst := by
  constructor
  · have hp : rows.Pairwise
        (fun a b => similarityOfDistance b.2 ≤ similarityOfDistance a.2) := by
      refine hasc.imp_of_mem ?_
      intro a b ha hb hle
      rcases hreg with hall | hall
      · exact similarityOfDistance_anti _ _ hle (Or.inl ⟨hall a ha, hall b hb⟩)
      · exact similarityOfDistance_anti _ _ hle (Or.inr ⟨hall a ha, hall b hb⟩)
    exact List.Pairwise.sublist
      ((List.take_sublist _ _).trans (List.filter_sublist _)) hp
  · exact searchSimilarChunks_eq th lim rows

/-- Concrete chunks for the retrieval counterexample and witness. -/
def chunkA : FinancialChunk := ⟨1, "doc1", none, "uploaded_chunk_1", "a"⟩

def chunkB : FinancialChunk := ⟨2, "doc1", none, "uploaded_chunk_2", "b"⟩

theorem similarityOfDistance_34 : similarityOfDistance (3 / 4) = 1 / 4 := by
  unfold similarityOfDistance
  rw [if_pos (by norm_num)]
  norm_num

theorem similarityOfDistance_1110 : similarityOfDistance (11 / 10) = 79 / 200 := by
  unfold similarityOfDistance
  rw [if_neg (by norm_num)]
  rw [max_eq_right (by norm_num)]
  norm_num

theorem searchResultsWithSim_cex :
    searchResultsWithSim SIMILARITY_THRESHOLD 5 [(chunkA, 3 / 4), (chunkB, 11 / 10)] =
      [(chunkA, 3 / 4), (chunkB, 11 / 10)] := by
  unfold searchResultsWithSim
  rw [List.filter_cons, List.filter_cons, List.filter_nil]
  have h1 : (!decide (similarityOfDistance ((chunkA, (3 : ℚ) / 4)).2 < SIMILARITY_THRESHOLD))
      = true := by
    simp only [similarityOfDistance_34, SIMILARITY_THRESHOLD]
    norm_num
  have h2 : (!decide (similarityOfDistance ((chunkB, (11 : ℚ) / 10)).2 < SIMILARITY_THRESHOLD))
      = true := by
    simp only [similarityOfDistance_1110, SIMILARITY_THRESHOLD]
    norm_num
  rw [h1, h2]
  rfl

/-- C2 (counterexample): with candidates at distances 3/4 then 11/10 —
ascending, best-first for the engine — both pass the default threshold
and are returned in that order, yet their similarities are 1/4 then
79/200, strictly increasing: the returned results of this query call are
not non-increasing in similarity. -/
theorem result_ordering_cex :
    ((3 : ℚ) / 4 ≤ 11 / 10) ∧
    similarityOfDistance (3 / 4) < similarityOfDistance (11 / 10) ∧
    searchSimilarChunks SIMILARITY_THRESHOLD 5 [(chunkA, 3 / 4), (chunkB, 11 / 10)] =
      [chunkA, chunkB] ∧
    ¬ (searchResultsWithSim SIMILARITY_THRESHOLD 5 [(chunkA, 3 / 4), (chunkB, 11 / 10)]).Pairwise
      (fun a b => similarityOfDistance b.2 ≤ similarityOfDistance a.2) := by
  refine ⟨by norm_num, ?_, ?_, ?_⟩
  · rw [similarityOfDistance_34, similarityOfDistance_1110]
    norm_num
  · rw [searchSimilarChunks_eq, searchResultsWithSim_cex]
    rfl
  · rw [searchResultsWithSim_cex]
    intro h
    have := (List.pairwise_cons.mp h).1 (chunkB, 11 / 10) (by simp)
    rw [similarityOfDistance_34, similarityOfDistance_1110] at this
    norm_num at this

/-- Witness for result_ordering_same_regime: two candidates at distances
1/10 and 1/2, both cosine-style. -/
theorem result_ordering_same_regime_witness :
    ([(chunkA, (1 : ℚ) / 10), (chunkB, 1 / 2)].Pairwise (fun a b => a.2 ≤ b.2)) ∧
    (∀ r ∈ [(chunkA, (1 : ℚ) / 10), (chunkB, 1 / 2)], r.2 ≤ 1) ∧
    ((searchResultsWithSim SIMILARITY_THRESHOLD 5
        [(chunkA, (1 : ℚ) / 10), (chunkB, 1 / 2)]).Pairwise
      (fun a b => similarityOfDistance b.2 ≤ similarityOfDistance a.2) ∧
    searchSimilarChunks SIMILARITY_THRESHOLD 5 [(chunkA, (1 : ℚ) / 10), (chunkB, 1 / 2)] =
      (searchResultsWithSim SIMILARITY_THRESHOLD 5
        [(chunkA, (1 : ℚ) / 10), (chunkB, 1 / 2)]).map Prod.fst) := by
  have hasc : ([(chunkA, (1 : ℚ) / 10), (chunkB, 1 / 2)].Pairwise (fun a b => a.2 ≤ b.2)) := by
    rw [List.pairwise_cons]
    refine ⟨?_, by simp⟩
    intro b hb
    rw [List.mem_singleton] at hb
    rw [hb]
    norm_num
  have hall : ∀ r ∈ [(chunkA, (1 : ℚ) / 10), (chunkB, 1 / 2)], r.2 ≤ 1 := by
    intro r hr
    rcases List.mem_cons.mp hr with h | h
    · rw [h]; norm_num
    · rw [List.mem_singleton] at h
      rw [h]; norm_num
  exact ⟨hasc, hall,
    result_ordering_same_regime SIMILARITY_THRESHOLD 5 _ hasc (Or.inl hall)⟩

/-! ### Generation router lemmas -/

/-- Concrete chunk used in the router counterexample and witnesses. -/
def chunkC : FinancialChunk := ⟨3, "doc1", none, "uploaded_chunk_1", "c"⟩

/-- C4 (counterexample): when the Llama backend receives a well-formed
HTTP response whose body lacks the chat-completions shape, its parsing
except-clause returns the non-empty "[LLM_ERROR] ..." sentinel rather
than raising, so the router hands that sentinel — not the fixed apology —
back as the answer text. -/
theorem backend_parse_error_cex :
    llamaParseResponse none = LLM_ERROR_MSG ∧
    (answerQuestionFromChunks ("q") [chunkC] 3 (Except.ok (llamaParseResponse none))).1
      ≠ APOLOGY ∧
    (answerQuestionFromChunks ("q") [chunkC] 3 (Except.ok (llamaParseResponse none))).1
      = LLM_ERROR_MSG := by
  refine ⟨rfl, ?_, ?_⟩ <;> decide

/-- C4 (amended): with a non-empty selected chunk list, a backend call
that raises (transport, timeout, malformed JSON) yields the fixed apology
whatever the error detail was, and backend-returned empty text also
yields the apology; but a response-shape parsing failure inside the Llama
client is returned as the fixed "[LLM_ERROR] ..." sentinel text instead
of the apology.  In every case the call returns normally. -/
theorem backend_failure_apology (q : String) (chunks : List FinancialChunk)
    (mc : Nat) (h : chunks.take mc ≠ []) :
    (∀ msg : String,
      (answerQuestionFromChunks q chunks mc (Except.error msg)).1 = APOLOGY) ∧
    (answerQuestionFromChunks q chunks mc (Except.ok (""))).1 = APOLOGY ∧
    (answerQuestionFromChunks q chunks mc (Except.ok (llamaParseResponse none))).1
      = LLM_ERROR_MSG := by
  have hne : (chunks.take mc).isEmpty = false := by
    rcases he : chunks.take mc with _ | ⟨c, cs⟩
    · exact absurd he h
    · rfl
  refine ⟨?_, ?_, ?_⟩
  · intro msg
    simp only [answerQuestionFromChunks, hne, Bool.false_eq_true, if_false]
    rw [if_neg (by decide)]
  · simp only [answerQuestionFromChunks, hne, Bool.false_eq_true, if_false]
    simp
  · simp only [answerQuestionFromChunks, llamaParseResponse, hne,
      Bool.false_eq_true, if_false]
    rw [if_neg (by decide)]

/-- Witness for backend_failure_apology with one selected chunk. -/
theorem backend_failure_apology_witness :
    ([chunkC].take 3 ≠ []) ∧
    ((∀ msg : String,
      (answerQuestionFromChunks ("q") [chunkC] 3 (Except.error msg)).1 = APOLOGY) ∧
    (answerQuestionFromChunks ("q") [chunkC] 3 (Except.ok (""))).1 = APOLOGY ∧
    (answerQuestionFromChunks ("q") [chunkC] 3 (Except.ok (llamaParseResponse none))).1
      = LLM_ERROR_MSG) :=
  ⟨by decide, backend_failure_apology ("q") [chunkC] 3 (by decide)⟩

/-- C9: the second component returned by answer_question_from_chunks is
always exactly the first min(max_chunks, length) input chunks in their
given order — for every backend outcome, including a raised backend
error, so an apology answer is paired with the selected chunks, never
with an empty list when chunks were selected. -/
theorem chunks_used_is_take (q : String) (chunks : List FinancialChunk) (mc : Nat)
    (backend : Except String String) :
    (answerQuestionFromChunks q chunks mc backend).2 = chunks.take mc ∧
    (chunks.take mc).length = min mc chunks.length := by
  constructor
  · by_cases h : (chunks.take mc).isEmpty
    · have he : chunks.take mc = [] := List.isEmpty_iff.mp h
      simp only [answerQuestionFromChunks, he, List.isEmpty_nil, if_true]
    · simp only [answerQuestionFromChunks, h, Bool.false_eq_true, if_false]
  · exact List.length_take mc chunks

/-! ### Deletion lemmas -/

/-- C8: delete never raises — an unknown document_id returns 0 leaving
the store unchanged, deleting the same id a second time returns 0, and
an underlying store error is caught and converted into a return of 0. -/
theorem delete_never_raises (s : Store) (docId : String)
    (hunknown : ∀ c ∈ s.items, c.documentId ≠ docId) :
    deleteDocument s docId false = (s, 0) ∧
    (∀ s2 : Store, ∀ d2 : String,
      (deleteDocument (deleteDocument s2 d2 false).1 d2 false).2 = 0) ∧
    (∀ s3 : Store, ∀ d3 : String, deleteDocument s3 d3 true = (s3, 0)) := by
  refine ⟨?_, ?_, fun s3 d3 => rfl⟩
  · unfold deleteDocument
    rw [if_neg (by simp)]
    have hm : s.items.filter (fun c => decide (c.documentId = docId)) = [] := by
      rw [List.filter_eq_nil_iff]
      intro c hc
      simp [hunknown c hc]
    have hk : s.items.filter (fun c => !decide (c.documentId = docId)) = s.items := by
      rw [List.filter_eq_self]
      intro c hc
      simp [hunknown c hc]
    rw [hm, hk]
    rfl
  · intro s2 d2
    unfold deleteDocument
    rw [if_neg (by simp), if_neg (by simp)]
    simp only
    rw [List.filter_filter]
    have : ∀ c : StoredChunk,
        (decide (c.documentId = d2) && !decide (c.documentId = d2)) = false := by
      intro c
      exact Bool.and_not_self _
    rw [List.filter_congr (fun c _ => this c)]
    simp

/-- Witness for delete_never_raises on the initial store, where no chunk
carries the requested document_id. -/
theorem delete_never_raises_witness :
    (∀ c ∈ initialStore.items, c.documentId ≠ "doc1") ∧
    (deleteDocument initialStore ("doc1") false = (initialStore, 0) ∧
    (∀ s2 : Store, ∀ d2 : String,
      (deleteDocument (deleteDocument s2 d2 false).1 d2 false).2 = 0) ∧
    (∀ s3 : Store, ∀ d3 : String, deleteDocument s3 d3 true = (s3, 0))) :=
  ⟨by intro c hc; exact absurd hc (List.not_mem_nil c),
    delete_never_raises initialStore ("doc1")
      (by intro c hc; exact absurd hc (List.not_mem_nil c))⟩

/-! ### Chunk id lemmas -/

/-- add_document advances the id counter by exactly the number of chunks
it added. -/
theorem addDocument_next (s : Store) (d : String) (nm : Option String)
    (c : List Char) (m : Nat) (o : Int) :
    (addDocument s d nm c m o).1.nextChunkId =
      s.nextChunkId + (addDocument s d nm c m o).2 := by
  unfold addDocument
  by_cases h : (chunkDocument m o c).isEmpty
  · simp [h]
  · simp [h]

/-- delete_document never touches the id counter. -/
theorem deleteDocument_next (s : Store) (d : String) (f : Bool) :
    (deleteDocument s d f).1.nextChunkId = s.nextChunkId := by
  cases f
  · rfl
  · rfl

/-- The ids of the records persisted by add_document are the old ids
followed by the consecutive block starting at the old counter. -/
theorem addDocument_items_ids (s : Store) (d : String) (nm : Option String)
    (c : List Char) (m : Nat) (o : Int) :
    ((addDocument s d nm c m o).1.items).map StoredChunk.id =
      s.items.map StoredChunk.id ++
        List.range' s.nextChunkId (chunkDocument m o c).length := by
  unfold addDocument
  by_cases h : (chunkDocument m o c).isEmpty
  · rw [List.isEmpty_iff] at h
    simp [h]
  · simp only [h, Bool.false_eq_true, if_false]
    rw [List.map_append]
    congr 1
    rw [List.map_map]
    have hf : (StoredChunk.id ∘ fun p : Nat × List Char =>
        StoredChunk.mk (s.nextChunkId + p.1) d nm
          ("uploaded_chunk_" ++ toString (p.1 + 1)) p.2)
        = (fun n => s.nextChunkId + n) ∘ Prod.fst := rfl
    rw [hf, ← List.map_map, List.enum_map_fst, ← List.range'_eq_map_range]

/-- Bounds for the ids emitted by one operation. -/
theorem runOp_spec (s : Store) (op : Op) :
    s.nextChunkId ≤ (runOp s op).1.nextChunkId ∧
    List.Pairwise (· < ·) (runOp s op).2 ∧
    ∀ i ∈ (runOp s op).2, s.nextChunkId ≤ i ∧ i < (runOp s op).1.nextChunkId := by
  cases op with
  | add d nm c m o =>
    simp only [runOp]
    have hn := addDocument_next s d nm c m o
    refine ⟨by omega, List.pairwise_lt_range' _ _ 1 (by omega), ?_⟩
    intro i hi
    rw [List.mem_range'] at hi
    rcases hi with ⟨k, hk, hik⟩
    omega
  | delete d f =>
    simp only [runOp]
    rw [deleteDocument_next]
    refine ⟨le_refl _, List.Pairwise.nil, ?_⟩
    intro i hi
    exact absurd hi (List.not_mem_nil i)

/-- Bounds for the ids emitted by a whole operation sequence: they are
pairwise strictly increasing and confined between the starting and final
counter values. -/
theorem runOps_spec (ops : List Op) : ∀ s : Store,
    s.nextChunkId ≤ (runOps s ops).1.nextChunkId ∧
    List.Pairwise (· < ·) (runOps s ops).2 ∧
    ∀ i ∈ (runOps s ops).2, s.nextChunkId ≤ i ∧ i < (runOps s ops).1.nextChunkId := by
  induction ops with
  | nil =>
    intro s
    refine ⟨le_refl _, List.Pairwise.nil, ?_⟩
    intro i hi
    exact absurd hi (List.not_mem_nil i)
  | cons op rest ih =>
    intro s
    simp only [runOps]
    obtain ⟨h1, h2, h3⟩ := runOp_spec s op
    obtain ⟨g1, g2, g3⟩ := ih (runOp s op).1
    refine ⟨le_trans h1 g1, ?_, ?_⟩
    · rw [List.pairwise_append]
      refine ⟨h2, g2, ?_⟩
      intro a ha b hb
      have ha2 := (h3 a ha).2
      have hb1 := (g3 b hb).1
      omega
    · intro i hi
      rcases List.mem_append.mp hi with hm | hm
      · exact ⟨(h3 i hm).1, lt_of_lt_of_le (h3 i hm).2 g1⟩
      · exact ⟨le_trans h1 (g3 i hm).1, (g3 i hm).2⟩

/-- C5: across any sequence of add and delete operations in one process
lifetime, the chunk ids assigned to persisted chunks are pairwise
strictly increasing in order of assignment — so never repeated — and a
delete never changes the counter, so deletion never makes an id available
for reuse.  The second conjunct ties the emitted ids to the persisted
records: an add appends records carrying exactly the consecutive id block
starting at the counter. -/
theorem chunk_ids_strictly_increasing :
    (∀ ops : List Op, List.Pairwise (· < ·) (runOps initialStore ops).2) ∧
    (∀ s d nm c m o, ((addDocument s d nm c m o).1.items).map StoredChunk.id =
      s.items.map StoredChunk.id ++
        List.range' s.nextChunkId (chunkDocument m o c).length) ∧
    (∀ s d f, (deleteDocument s d f).1.nextChunkId = s.nextChunkId) :=
  ⟨fun ops => (runOps_spec ops initialStore).2.1,
    addDocument_items_ids, deleteDocument_next⟩

/-! ### Extraction orchestrator lemmas -/

/-- A long candidate containing none of the domain vocabulary is flagged
garbled; its readability score is never consulted. -/
theorem looksGarbled_no_vocab (t : List Char) (hlen : 100 ≤ t.length)
    (hvocab : financialWords.all
      (fun w => !containsSub w.data (t.map Char.toLower)) = true) :
    looksGarbled t = true := by
  have hne : t.isEmpty = false := by
    cases t with
    | nil => simp at hlen
    | cons c cs => rfl
  unfold looksGarbled
  rw [hne]
  have h100 : decide (t.length < 100) = false :=
    decide_eq_false (Nat.not_lt.mpr hlen)
  rw [h100]
  simp only [Bool.or_false, Bool.false_eq_true, if_false]
  simp only [List.all_eq_true] at hvocab
  simp only [Bool.not_eq_true', List.any_eq_false]
  intro w hw
  have hv := hvocab w hw
  simpa using hv

/-- Whenever the best candidate entering step 3 is flagged garbled, the
OCR strategy is invoked. -/
theorem step3_ocr_of_garbled (b : Option (List Char) × ℚ × Bool)
    (ocr : Option (List Char)) (h : b.2.2 = true) : (step3 b ocr).2 = true := by
  rcases b with ⟨ob, sc, g⟩
  simp only at h
  subst h
  cases ob with
  | some bt =>
    cases ocr with
    | some ot =>
      simp only [step3]
      rw [if_pos (Or.inl trivial)]
      by_cases hcond : ¬ot.isEmpty = true ∧
          (looksGarbled ot = false ∨ sc < readabilityScore ot)
      · rw [if_pos hcond]
      · rw [if_neg hcond]
    | none =>
      simp only [step3]
      rw [if_pos (Or.inl trivial)]
  | none =>
    cases ocr with
    | some ot =>
      simp only [step3]
      by_cases he : ot.isEmpty = true
      · rw [if_pos he]
      · rw [if_neg he]
    | none => rfl

/-- C7: a primary-strategy candidate at least 100 characters long that
contains none of the domain vocabulary words is flagged garbled no matter
its readability score; the fast path then never returns it, and whenever
the best non-OCR candidate after trying the secondary strategy is still
flagged garbled, the OCR strategy is invoked. -/
theorem garbled_no_fastpath_invokes_ocr (t : List Char)
    (hlen : 100 ≤ t.length)
    (hvocab : financialWords.all
      (fun w => !containsSub w.data (t.map Char.toLower)) = true) :
    looksGarbled t = true ∧
    step1FastPath (some t) = none ∧
    (∀ pdfp ocr, (step2 (step1Best (some t)) pdfp).2.2 = true →
      (extractTextFromPdf (some t) pdfp ocr).2 = true) := by
  have hg := looksGarbled_no_vocab t hlen hvocab
  have hfp : step1FastPath (some t) = none := by
    simp only [step1FastPath]
    rw [if_neg ?hc]
    case hc =>
      intro hc
      rw [hg] at hc
      exact absurd hc.2.2 (by simp)
  refine ⟨hg, hfp, ?_⟩
  intro pdfp ocr hgarbled
  simp only [extractTextFromPdf, hfp]
  exact step3_ocr_of_garbled _ _ hgarbled

/-- Witness for garbled_no_fastpath_invokes_ocr on 100 repeated
characters (readability 1.0, no vocabulary word present). -/
theorem garbled_no_fastpath_invokes_ocr_witness :
    (100 ≤ (List.replicate 100 'x').length) ∧
    (financialWords.all
      (fun w => !containsSub w.data ((List.replicate 100 'x').map Char.toLower)) = true) ∧
    (looksGarbled (List.replicate 100 'x') = true ∧
    step1FastPath (some (List.replicate 100 'x')) = none ∧
    (∀ pdfp ocr,
      (step2 (step1Best (some (List.replicate 100 'x'))) pdfp).2.2 = true →
      (extractTextFromPdf (some (List.replicate 100 'x')) pdfp ocr).2 = true)) :=
  ⟨by decide, by decide,
    garbled_no_fastpath_invokes_ocr (List.replicate 100 'x') (by decide) (by decide)⟩

end DocQA
